import Mathlib

/-!
Verification of the go-balancer routing engine: a shallow embedding of the
backend registry, the selection strategies (round robin, least connections,
random, weighted round robin, IP hash), the health-check classification and
the router request path, together with proofs about them.

Machine integers are modelled as mathematical integers wrapped explicitly:
a Go int32 value is an Int together with the wrap function int32wrap applied
after every arithmetic step, a Go uint64 counter is a Nat reduced modulo 2^64,
and the Go conversion int(u) for a uint64 u is goIntOfUInt64.  Go slice
indexing panics outside bounds, so selection results distinguish a returned
backend, a nil pointer, and a panic.
-/

namespace GoBalancer

/-- Wrap an integer into int32 two's-complement range, as Go arithmetic does. -/
def int32wrap (n : Int) : Int := (n + 2 ^ 31) % 2 ^ 32 - 2 ^ 31

/-- Wrap an integer into int64 two's-complement range, as Go arithmetic does. -/
def int64wrap (n : Int) : Int := (n + 2 ^ 63) % 2 ^ 64 - 2 ^ 63

/-- Modulus of Go's uint64 arithmetic. -/
def UINT64MOD : Nat := 2 ^ 64

/-- Go conversion int(u) of a uint64 value u (64-bit int reinterpretation). -/
def goIntOfUInt64 (n : Nat) : Int :=
  if n < 2 ^ 63 then (n : Int) else (n : Int) - 2 ^ 64

/--
Backend (backend/backend.go): one upstream target.  URL is modelled by its
string rendering (identity is by URL string), ResponseTime and LastCheck as
integer nanosecond counts, Connections and FailCount as int32 values.
-/
structure Backend where
  url : String
  alive : Bool
  connections : Int
  responseTime : Int
  failCount : Int
  lastCheck : Int
  deriving DecidableEq

/-- Backend.SetAlive. -/
def Backend.setAlive (b : Backend) (a : Bool) : Backend := { b with alive := a }

/-- Backend.IsAlive. -/
def Backend.isAlive (b : Backend) : Bool := b.alive

/-- Backend.IncrementConnections: atomic.AddInt32(&b.Connections, 1). -/
def Backend.incrementConnections (b : Backend) : Backend :=
  { b with connections := int32wrap (b.connections + 1) }

/-- Backend.DecrementConnections: atomic.AddInt32(&b.Connections, -1).
The source performs a plain add of -1 with no lower bound. -/
def Backend.decrementConnections (b : Backend) : Backend :=
  { b with connections := int32wrap (b.connections - 1) }

/-- Backend.GetConnections. -/
def Backend.getConnections (b : Backend) : Int := b.connections

/-- Backend.ResetFailCount: atomic.StoreInt32(&b.FailCount, 0). -/
def Backend.resetFailCount (b : Backend) : Backend := { b with failCount := 0 }

/-- Backend.UpdateResponseTime. -/
def Backend.updateResponseTime (b : Backend) (d : Int) : Backend :=
  { b with responseTime := d }

/-- ReverseProxy.ModifyResponse (backend.go): resets FailCount to 0 when the
forwarded response status is below 500, otherwise leaves the backend alone. -/
def Backend.modifyResponse (b : Backend) (status : Nat) : Backend :=
  if status < 500 then { b with failCount := 0 } else b

/-- ReverseProxy.ErrorHandler (backend.go): on a transport-level forwarding
failure, increment FailCount by one and set Alive to false. -/
def Backend.errorHandler (b : Backend) : Backend :=
  ({ b with failCount := int32wrap (b.failCount + 1) }).setAlive false

/-- Outcome of the network call a forward delegates to the reverse proxy:
either a response with some status, or a transport-level failure. -/
inductive ForwardOutcome where
  | success (status : Nat)
  | transportError
  deriving DecidableEq

/-- HTTP-shaped result the router hands back to the caller. -/
inductive HttpResponse where
  | forwarded (status : Nat)
  | badGateway
  | serviceUnavailable
  | panicked
  deriving DecidableEq

/-- Backend.Serve (backend.go): increment Connections, run the reverse proxy
(whose ModifyResponse or ErrorHandler fires according to the outcome), then
the deferred block decrements Connections and records the elapsed duration. -/
def Backend.serve (b : Backend) (outcome : ForwardOutcome) (dur : Int) :
    Backend × HttpResponse :=
  let b1 := b.incrementConnections
  let step : Backend × HttpResponse :=
    match outcome with
    | ForwardOutcome.success s => (b1.modifyResponse s, HttpResponse.forwarded s)
    | ForwardOutcome.transportError => (b1.errorHandler, HttpResponse.badGateway)
  ((step.1.decrementConnections).updateResponseTime dur, step.2)

/-- Outcome of one health probe (healthcheck.go check): the request
construction can fail, the HTTP client can fail (covering timeouts), or a
response with some status arrives. -/
inductive ProbeOutcome where
  | requestError
  | transportError
  | response (status : Nat)
  deriving DecidableEq

/-- HealthChecker.check (healthcheck.go): classify one probe of a backend.
A transport error or timeout marks the backend dead; a status in [200,400)
marks it alive and stores the measured duration; any other status marks it
dead.  Neither dead outcome touches the stored response time. -/
def healthCheck (b : Backend) (outcome : ProbeOutcome) (duration : Int) : Backend :=
  match outcome with
  | ProbeOutcome.requestError => b.setAlive false
  | ProbeOutcome.transportError => b.setAlive false
  | ProbeOutcome.response s =>
      if 200 ≤ s ∧ s < 400 then (b.setAlive true).updateResponseTime duration
      else b.setAlive false

/-- Result of a strategy's SelectBackend: a backend pointer, the nil pointer,
or a Go runtime panic (out-of-range slice index). -/
inductive SelResult where
  | ok (b : Backend)
  | nil
  | panicked
  deriving DecidableEq

/-- Go slice indexing backends[idx] for an int index: panics unless
0 ≤ idx < len. -/
def goSliceIndex (l : List Backend) (idx : Int) : SelResult :=
  if h : 0 ≤ idx ∧ idx.toNat < l.length then SelResult.ok (l.get ⟨idx.toNat, h.2⟩)
  else SelResult.panicked

/-- RoundRobin strategy state (strategy/roundrobin.go): the shared uint64
cursor. -/
structure RoundRobin where
  current : Nat
  deriving DecidableEq

/-- RoundRobin.SelectBackend (strategy/roundrobin.go): guard the empty list,
filter to alive backends, guard the empty alive list, atomically advance the
cursor, and index the alive list at (int(next)-1) % len using Go's truncated
remainder. -/
def RoundRobin.selectBackend (rr : RoundRobin) (backends : List Backend) :
    SelResult × RoundRobin :=
  if backends.length = 0 then (SelResult.nil, rr)
  else
    let aliveBackends := backends.filter (fun b => b.isAlive)
    if aliveBackends.length = 0 then (SelResult.nil, rr)
    else
      let next := (rr.current + 1) % UINT64MOD
      (goSliceIndex aliveBackends
        (Int.tmod (goIntOfUInt64 next - 1) (aliveBackends.length : Int)),
       RoundRobin.mk next)

/-- Run n consecutive RoundRobin.SelectBackend calls on a fixed backend list,
collecting the results in order. -/
def runRoundRobin (rr : RoundRobin) (backends : List Backend) : Nat → List SelResult
  | 0 => []
  | n + 1 =>
      (rr.selectBackend backends).1 ::
        runRoundRobin (rr.selectBackend backends).2 backends n

/-- The Go zero value of the Backend struct, which
LeastConnections.SelectBackend allocates as its initial selection. -/
def zeroBackend : Backend :=
  { url := "", alive := false, connections := 0, responseTime := 0,
    failCount := 0, lastCheck := 0 }

/-- The scan loop of LeastConnections.SelectBackend: skip dead backends;
take a backend when the sentinel -1 is still present or when its connection
count is strictly below the minimum seen so far. -/
def lcLoop : List Backend → Backend → Int → Backend
  | [], selected, _ => selected
  | b :: rest, selected, minConnections =>
      if b.isAlive = false then lcLoop rest selected minConnections
      else if minConnections = -1 ∨ b.getConnections < minConnections then
        lcLoop rest b b.getConnections
      else lcLoop rest selected minConnections

/-- LeastConnections.SelectBackend: nil only on an empty input list; otherwise
the scan result, which is the zero-value Backend when no backend is alive. -/
def leastConnectionsSelect (backends : List Backend) : Option Backend :=
  if backends.length = 0 then none
  else some (lcLoop backends zeroBackend (-1))

/-- Random.SelectBackend (strategy/random.go): guard the empty and all-dead
lists, then return the alive backend at a pseudo-random index.  The generator
is modelled by the draw argument; rng.Intn n yields a value in [0, n), here
draw n % n. -/
def randomSelect (backends : List Backend) (draw : Nat → Nat) : Option Backend :=
  if backends.length = 0 then none
  else
    let aliveBackends := backends.filter (fun b => b.isAlive)
    if h : aliveBackends.length = 0 then none
    else
      some (aliveBackends.get
        ⟨draw aliveBackends.length % aliveBackends.length,
         Nat.mod_lt _ (Nat.pos_of_ne_zero h)⟩)

/-- IPHash.SelectBackend (strategy/random.go): guard the empty and all-dead
lists, then return the first alive backend. -/
def ipHashSelect (backends : List Backend) : Option Backend :=
  if backends.length = 0 then none
  else
    match backends.filter (fun b => b.isAlive) with
    | [] => none
    | b :: _ => some b

/-- WeightedRoundRobin strategy state (strategy/random.go): the uint64 cursor
and the weight map, modelled as an association list keyed by backend value. -/
structure WeightedRoundRobin where
  current : Nat
  weights : List (Backend × Int)
  deriving DecidableEq

/-- Weight lookup of WeightedRoundRobin.SelectBackend: the mapped weight when
the backend has an entry, 1 otherwise. -/
def weightOf (weights : List (Backend × Int)) (b : Backend) : Int :=
  match weights.lookup b with
  | some w => w
  | none => 1

/-- The expansion loop of WeightedRoundRobin.SelectBackend: each alive backend
is appended weight-many times (a non-positive weight appends nothing). -/
def expandWeighted (weights : List (Backend × Int)) : List Backend → List Backend
  | [] => []
  | b :: rest =>
      (if b.isAlive then List.replicate (weightOf weights b).toNat b else []) ++
        expandWeighted weights rest

/-- The expansion as the specification words it: filter to alive backends in
list order, then replace each backend b by weight(b) copies of b. -/
def expandSpec (weights : List (Backend × Int)) (backends : List Backend) :
    List Backend :=
  (backends.filter (fun b => b.isAlive)).flatMap
    (fun b => List.replicate (weightOf weights b).toNat b)

/-- WeightedRoundRobin.SelectBackend: guard the empty list, build the weighted
expansion of the alive backends, guard the empty expansion, advance the
cursor, and index the expansion at (int(next)-1) % len. -/
def WeightedRoundRobin.selectBackend (wrr : WeightedRoundRobin)
    (backends : List Backend) : SelResult × WeightedRoundRobin :=
  if backends.length = 0 then (SelResult.nil, wrr)
  else
    let weightedBackends := expandWeighted wrr.weights backends
    if weightedBackends.length = 0 then (SelResult.nil, wrr)
    else
      let next := (wrr.current + 1) % UINT64MOD
      (goSliceIndex weightedBackends
        (Int.tmod (goIntOfUInt64 next - 1) (weightedBackends.length : Int)),
       { wrr with current := next })

/-- The closed set of strategies behind the Strategy interface
(strategy/strategy.go).  Random carries its generator as a draw function. -/
inductive Strategy where
  | roundRobin (rr : RoundRobin)
  | leastConnections
  | random (draw : Nat → Nat)
  | weightedRoundRobin (wrr : WeightedRoundRobin)
  | ipHash

/-- A Go *Backend return value as a selection result: nil or a backend. -/
def optToSel : Option Backend → SelResult
  | none => SelResult.nil
  | some b => SelResult.ok b

/-- Dispatch of Strategy.SelectBackend over the strategy variants, returning
the result and the strategy's updated state. -/
def Strategy.selectBackend : Strategy → List Backend → SelResult × Strategy
  | Strategy.roundRobin rr, bs =>
      ((rr.selectBackend bs).1, Strategy.roundRobin (rr.selectBackend bs).2)
  | Strategy.leastConnections, bs =>
      (optToSel (leastConnectionsSelect bs), Strategy.leastConnections)
  | Strategy.random draw, bs =>
      (optToSel (randomSelect bs draw), Strategy.random draw)
  | Strategy.weightedRoundRobin wrr, bs =>
      ((wrr.selectBackend bs).1, Strategy.weightedRoundRobin (wrr.selectBackend bs).2)
  | Strategy.ipHash, bs => (optToSel (ipHashSelect bs), Strategy.ipHash)

/-- ServerPool (backend/backend.go): the ordered backend list and the shared
uint64 rotation cursor. -/
structure ServerPool where
  backends : List Backend
  current : Nat
  deriving DecidableEq

/-- The loop of ServerPool.MarkBackendStatus: walk the list, set Alive on the
first backend whose URL string equals the given one, and stop. -/
def markLoop (u : String) (a : Bool) : List Backend → List Backend
  | [] => []
  | b :: rest =>
      if b.url = u then b.setAlive a :: rest
      else b :: markLoop u a rest

/-- ServerPool.MarkBackendStatus. -/
def ServerPool.markBackendStatus (sp : ServerPool) (u : String) (a : Bool) :
    ServerPool :=
  { sp with backends := markLoop u a sp.backends }

/-- Router metrics (balancer/balancer.go): int64 counters. -/
structure Metrics where
  totalRequests : Int
  failedRequests : Int
  deriving DecidableEq

/-- LoadBalancer (balancer/balancer.go): backends, active strategy, metrics. -/
structure LoadBalancer where
  backends : List Backend
  strat : Strategy
  metrics : Metrics

/-- Replace the first occurrence of a backend value in the list (the in-place
mutation of the selected backend under value semantics). -/
def replaceFirst : List Backend → Backend → Backend → List Backend
  | [], _, _ => []
  | x :: rest, old, new =>
      if x = old then new :: rest else x :: replaceFirst rest old new

/-- LoadBalancer.ServeHTTP (balancer/balancer.go): bump TotalRequests, ask the
strategy for a backend; on nil bump FailedRequests and answer 503 Service
Unavailable without touching any backend; otherwise delegate to the selected
backend's Serve.  A strategy panic propagates out of the handler. -/
def LoadBalancer.serveHTTP (lb : LoadBalancer) (outcome : ForwardOutcome)
    (dur : Int) : LoadBalancer × HttpResponse :=
  let m1 : Metrics :=
    { lb.metrics with totalRequests := int64wrap (lb.metrics.totalRequests + 1) }
  match lb.strat.selectBackend lb.backends with
  | (SelResult.nil, strat2) =>
      ({ backends := lb.backends, strat := strat2,
         metrics := { m1 with failedRequests := int64wrap (m1.failedRequests + 1) } },
       HttpResponse.serviceUnavailable)
  | (SelResult.ok b, strat2) =>
      ({ backends := replaceFirst lb.backends b (b.serve outcome dur).1,
         strat := strat2, metrics := m1 },
       (b.serve outcome dur).2)
  | (SelResult.panicked, strat2) =>
      ({ lb with strat := strat2, metrics := m1 }, HttpResponse.panicked)

/-- Round-to-nearest of the fraction num/den (den > 0) scaled to hundredths:
the integer nearest to num/den, halves rounding up, computed as
floor((2*num + den) / (2*den)). -/
def roundNearest (num den : Int) : Int := Int.ediv (2 * num + den) (2 * den)

/-- Render a count of hundredths as a two-decimal percentage string, as
fmt.Sprintf %.2f%% renders the corresponding value. -/
def fmtHundredths (h : Int) : String :=
  let ip := Int.ediv h 100
  let fp := Int.emod h 100
  toString ip ++ "." ++ (if fp < 10 then "0" ++ toString fp else toString fp) ++ "%"

/-- calculateSuccessRate (balancer/balancer.go): "N/A" when total is zero,
otherwise (total-failed)/total*100 rendered with two decimals.  The float64
computation is modelled by exact rounding of the rational
(total-failed)*10000/total to an integer count of hundredths. -/
def calculateSuccessRate (total failed : Int) : String :=
  if total = 0 then "N/A"
  else fmtHundredths (roundNearest ((total - failed) * 10000) total)

/-! Concrete fixtures used by counterexamples and witnesses. -/

/-- A dead backend with no traffic. -/
def bDead : Backend :=
  { url := "http://localhost:8081", alive := false, connections := 0,
    responseTime := 0, failCount := 0, lastCheck := 0 }

/-- An alive backend with no traffic. -/
def bIdle : Backend :=
  { url := "http://localhost:8082", alive := true, connections := 0,
    responseTime := 0, failCount := 0, lastCheck := 0 }

/-- An alive backend with three recorded consecutive failures. -/
def bFail3 : Backend :=
  { url := "http://localhost:8083", alive := true, connections := 0,
    responseTime := 0, failCount := 3, lastCheck := 0 }

/-- Alive backends carrying 2, 0 and 1 connections. -/
def bConn2 : Backend :=
  { url := "http://localhost:8084", alive := true, connections := 2,
    responseTime := 0, failCount := 0, lastCheck := 0 }

/-- Alive backend carrying 0 connections. -/
def bConn0 : Backend :=
  { url := "http://localhost:8085", alive := true, connections := 0,
    responseTime := 0, failCount := 0, lastCheck := 0 }

/-- Second alive backend carrying 0 connections. -/
def bConn0b : Backend :=
  { url := "http://localhost:8086", alive := true, connections := 0,
    responseTime := 0, failCount := 0, lastCheck := 0 }

/-- Alive backend carrying 1 connection. -/
def bConn1 : Backend :=
  { url := "http://localhost:8087", alive := true, connections := 1,
    responseTime := 0, failCount := 0, lastCheck := 0 }

/--
Claim C1: the source of LeastConnections.SelectBackend initialises its
selection with the address of a zero-value Backend struct; on a non-empty list
with no alive backend the scan never replaces it, so the call returns that
non-nil zero-value backend instead of nil.  This evaluation exhibits the
divergence from the claimed contract (nil on an all-dead list).
-/
theorem leastConnections_allDead_returns_zero_value :
    leastConnectionsSelect [bDead] = some zeroBackend ∧
      leastConnectionsSelect [bDead] ≠ none := by
  constructor
  · decide
  · decide

/--
Claim C2: the source of Backend.DecrementConnections performs a bare
atomic.AddInt32 of -1 with no lower bound, so decrementing a backend whose
connection count is 0 yields -1, not 0; the observed count is not kept ≥ 0.
This evaluation exhibits the divergence (the repository's own test
TestBackend_Connections expects 0 here).
-/
theorem decrementConnections_at_zero_goes_negative :
    (Backend.decrementConnections bIdle).getConnections = -1 := by decide

/--
Claim C3 counterexample: a forwarded response with server-error status 500 on
a backend with FailCount 3 does not reset the counter to zero; ModifyResponse
resets only on a status below 500.
-/
theorem serverError_response_does_not_reset_failCount :
    ¬ (Backend.modifyResponse bFail3 500).failCount = 0 := by decide

/--
Claim C3 (amended): a forwarded response whose status is below the
server-error class (status < 500) resets the consecutive-failure counter to
zero; a response with status ≥ 500 leaves the backend unchanged; and every
transport-level failure during forwarding increments the counter by one (in
int32 arithmetic) and marks the backend not alive.
-/
theorem failCount_reset_below_500_and_increment_on_transport_failure
    (b : Backend) (s : Nat) :
    (s < 500 → b.modifyResponse s = { b with failCount := 0 }) ∧
    (500 ≤ s → b.modifyResponse s = b) ∧
    b.errorHandler =
      { b with failCount := int32wrap (b.failCount + 1), alive := false } := by
  refine ⟨fun h => ?_, fun h => ?_, rfl⟩
  · rw [Backend.modifyResponse, if_pos h]
  · rw [Backend.modifyResponse, if_neg (by omega)]

/-- Claim C3 witness: the amended behaviour at statuses 200 and 500 on a
backend with three recorded failures. -/
theorem failCount_reset_witness :
    Backend.modifyResponse bFail3 200 = { bFail3 with failCount := 0 } ∧
    Backend.modifyResponse bFail3 500 = bFail3 ∧
    Backend.errorHandler bFail3 =
      { bFail3 with failCount := int32wrap (bFail3.failCount + 1), alive := false } :=
  ⟨(failCount_reset_below_500_and_increment_on_transport_failure bFail3 200).1
      (by decide),
   (failCount_reset_below_500_and_increment_on_transport_failure bFail3 500).2.1
      (by decide),
   (failCount_reset_below_500_and_increment_on_transport_failure bFail3 500).2.2⟩

/--
Claim C7: health-probe classification.  A response with status in [200,400)
sets the backend alive and overwrites its response time with the measured
probe duration; a response with status ≥ 400 sets it not alive; a transport
error or timeout (and a request-construction error) sets it not alive; in all
not-alive outcomes every other field, the stored response time included, is
unchanged.
-/
theorem healthCheck_classification (b : Backend) (s : Nat) (dur : Int) :
    (200 ≤ s → s < 400 →
      healthCheck b (ProbeOutcome.response s) dur =
        { b with alive := true, responseTime := dur }) ∧
    (400 ≤ s →
      healthCheck b (ProbeOutcome.response s) dur = { b with alive := false }) ∧
    healthCheck b ProbeOutcome.transportError dur = { b with alive := false } ∧
    healthCheck b ProbeOutcome.requestError dur = { b with alive := false } := by
  refine ⟨fun h1 h2 => ?_, fun h => ?_, rfl, rfl⟩
  · rw [healthCheck]
    rw [if_pos ⟨h1, h2⟩]
    rfl
  · rw [healthCheck, if_neg (by omega)]
    rfl

/-- Claim C7 witness: classification at statuses 200 and 500 and at a
transport failure, on a concrete dead backend with probe duration 7. -/
theorem healthCheck_classification_witness :
    healthCheck bDead (ProbeOutcome.response 200) 7 =
      { bDead with alive := true, responseTime := 7 } ∧
    healthCheck bDead (ProbeOutcome.response 500) 7 = { bDead with alive := false } ∧
    healthCheck bDead ProbeOutcome.transportError 7 = { bDead with alive := false } :=
  ⟨(healthCheck_classification bDead 200 7).1 (by decide) (by decide),
   (healthCheck_classification bDead 500 7).2.1 (by decide),
   (healthCheck_classification bDead 500 7).2.2.1⟩

/--
Claim C8: with total requests t and failed requests f, the reported success
rate is the not-available string when t = 0, and otherwise the two-decimal
rendering of (t-f)/t*100; in particular t = 12, f = 2 yields 83.33 percent.
-/
theorem successRate_spec (t f : Int) :
    calculateSuccessRate 0 f = "N/A" ∧
    (0 < t → calculateSuccessRate t f =
      fmtHundredths (roundNearest ((t - f) * 10000) t)) ∧
    calculateSuccessRate 12 2 = "83.33%" := by
  refine ⟨?_, fun h => ?_, by decide⟩
  · rw [calculateSuccessRate, if_pos rfl]
  · rw [calculateSuccessRate, if_neg (by omega)]

/-- Claim C8 witness: the rate at 12 total and 2 failed requests, computed
through the theorem and evaluated. -/
theorem successRate_witness :
    calculateSuccessRate 12 2 =
      fmtHundredths (roundNearest ((12 - 2) * 10000) 12) ∧
    calculateSuccessRate 12 2 = "83.33%" :=
  ⟨(successRate_spec 12 2).2.1 (by decide), (successRate_spec 12 2).2.2⟩

/-- When no backend's URL matches, the MarkBackendStatus loop is the
identity. -/
theorem markLoop_no_match (u : String) (a : Bool) :
    ∀ l : List Backend, (∀ b ∈ l, b.url ≠ u) → markLoop u a l = l
  | [], _ => rfl
  | b :: rest, h => by
      rw [markLoop, if_neg (h b (List.mem_cons_self b rest)),
        markLoop_no_match u a rest (fun x hx => h x (List.mem_cons_of_mem b hx))]

/-- The MarkBackendStatus loop updates exactly the entry at the first index
whose URL matches, and that entry's URL does match. -/
theorem markLoop_at_findIdx (u : String) (a : Bool) :
    ∀ (l : List Backend) (k : Nat) (hk : k < l.length),
      l.findIdx (fun b => b.url == u) = k →
      markLoop u a l = l.set k ((l.get ⟨k, hk⟩).setAlive a) ∧
        (l.get ⟨k, hk⟩).url = u := by
  intro l
  induction l with
  | nil => intro k hk _; exact absurd hk (Nat.not_lt_zero k)
  | cons b rest ih =>
      intro k hk hfind
      rw [List.findIdx_cons] at hfind
      by_cases hbu : b.url = u
      · have hb : (b.url == u) = true := beq_iff_eq.mpr hbu
        rw [hb] at hfind
        simp only [cond_true] at hfind
        subst hfind
        constructor
        · rw [markLoop, if_pos hbu]
          rfl
        · exact hbu
      · have hb : (b.url == u) = false := by
          cases hx : b.url == u
          · rfl
          · exact absurd (beq_iff_eq.mp hx) hbu
        rw [hb] at hfind
        simp only [cond_false] at hfind
        cases k with
        | zero => exact absurd hfind (by omega)
        | succ j =>
            have hj : j < rest.length := by
              simpa [List.length_cons, Nat.succ_lt_succ_iff] using hk
            have hrec := ih j hj (by omega)
            constructor
            · rw [markLoop, if_neg hbu, hrec.1]
              rfl
            · exact hrec.2

/--
Claim C10: ServerPool.MarkBackendStatus(u, a) changes only the Alive flag of
the first backend in the pool whose URL string equals u.  The rotation cursor
is unchanged; when no backend matches the whole pool is unchanged; when the
first match sits at index k, the backend list becomes the original list with
only index k replaced by the same backend with Alive set to a (so every other
backend, and every field of the matched backend other than Alive, is
unchanged).
-/
theorem markBackendStatus_frame (sp : ServerPool) (u : String) (a : Bool) :
    (sp.markBackendStatus u a).current = sp.current ∧
    ((∀ b ∈ sp.backends, b.url ≠ u) → sp.markBackendStatus u a = sp) ∧
    (∀ (k : Nat) (hk : k < sp.backends.length),
      sp.backends.findIdx (fun b => b.url == u) = k →
      (sp.markBackendStatus u a).backends =
        sp.backends.set k ((sp.backends.get ⟨k, hk⟩).setAlive a) ∧
      (sp.backends.get ⟨k, hk⟩).url = u ∧
      ((sp.backends.get ⟨k, hk⟩).setAlive a).alive = a ∧
      ((sp.backends.get ⟨k, hk⟩).setAlive a).url = (sp.backends.get ⟨k, hk⟩).url ∧
      ((sp.backends.get ⟨k, hk⟩).setAlive a).connections =
        (sp.backends.get ⟨k, hk⟩).connections ∧
      ((sp.backends.get ⟨k, hk⟩).setAlive a).responseTime =
        (sp.backends.get ⟨k, hk⟩).responseTime ∧
      ((sp.backends.get ⟨k, hk⟩).setAlive a).failCount =
        (sp.backends.get ⟨k, hk⟩).failCount ∧
      ((sp.backends.get ⟨k, hk⟩).setAlive a).lastCheck =
        (sp.backends.get ⟨k, hk⟩).lastCheck ∧
      (∀ j : Nat, j ≠ k →
        ((sp.markBackendStatus u a).backends)[j]? = (sp.backends)[j]?)) := by
  refine ⟨rfl, fun h => ?_, fun k hk hfind => ?_⟩
  · have := markLoop_no_match u a sp.backends h
    cases sp
    simp only [ServerPool.markBackendStatus] at *
    rw [this]
  · have hrec := markLoop_at_findIdx u a sp.backends k hk hfind
    refine ⟨hrec.1, hrec.2, rfl, rfl, rfl, rfl, rfl, rfl, fun j hj => ?_⟩
    show (markLoop u a sp.backends)[j]? = _
    rw [hrec.1]
    exact List.getElem?_set_ne (by omega)

/-- Claim C10 witness: marking http://localhost:8082 down in a two-backend
pool flips exactly that backend's Alive flag and leaves the rest of the pool
alone. -/
theorem markBackendStatus_frame_witness :
    (ServerPool.markBackendStatus ⟨[bDead, bIdle], 5⟩ "http://localhost:8082"
        false).backends =
      [bDead, bIdle].set 1 (Backend.setAlive bIdle false) ∧
    (ServerPool.markBackendStatus ⟨[bDead, bIdle], 5⟩ "http://localhost:8082"
        false).current = 5 ∧
    (ServerPool.markBackendStatus ⟨[bDead, bIdle], 5⟩ "x" true) =
      ⟨[bDead, bIdle], 5⟩ :=
  ⟨((markBackendStatus_frame ⟨[bDead, bIdle], 5⟩ "http://localhost:8082"
        false).2.2 1 (by decide) (by decide)).1,
   (markBackendStatus_frame ⟨[bDead, bIdle], 5⟩ "http://localhost:8082" false).1,
   (markBackendStatus_frame ⟨[bDead, bIdle], 5⟩ "x" true).2.1 (by decide)⟩

/-- int64 arithmetic is exact inside the representable range. -/
theorem int64wrap_eq_self {n : Int} (h1 : -(2 ^ 63) ≤ n) (h2 : n < 2 ^ 63) :
    int64wrap n = n := by
  rw [int64wrap]
  have : (n + 2 ^ 63) % 2 ^ 64 = n + 2 ^ 63 :=
    Int.emod_eq_of_lt (by omega) (by omega)
  omega

/--
Claim C9: every inbound request increments the total-request counter by one.
When the strategy returns nil, the failed-request counter is also incremented,
the response is 503 Service Unavailable, and no backend is touched (the
backend list is unchanged, so no connection count changes and nothing is
forwarded).  When the strategy returns a backend, the failed-request counter
is unchanged, the response is the forward's result, and only the selected
backend is updated by the forward.  Counter bounds keep the int64 arithmetic
exact.
-/
theorem serveHTTP_contract (lb : LoadBalancer) (outcome : ForwardOutcome)
    (dur : Int)
    (ht : 0 ≤ lb.metrics.totalRequests)
    (ht2 : lb.metrics.totalRequests + 1 < 2 ^ 63)
    (hf : 0 ≤ lb.metrics.failedRequests)
    (hf2 : lb.metrics.failedRequests + 1 < 2 ^ 63) :
    (lb.serveHTTP outcome dur).1.metrics.totalRequests =
      lb.metrics.totalRequests + 1 ∧
    ((lb.strat.selectBackend lb.backends).1 = SelResult.nil →
      (lb.serveHTTP outcome dur).1.metrics.failedRequests =
        lb.metrics.failedRequests + 1 ∧
      (lb.serveHTTP outcome dur).2 = HttpResponse.serviceUnavailable ∧
      (lb.serveHTTP outcome dur).1.backends = lb.backends) ∧
    (∀ b, (lb.strat.selectBackend lb.backends).1 = SelResult.ok b →
      (lb.serveHTTP outcome dur).1.metrics.failedRequests =
        lb.metrics.failedRequests ∧
      (lb.serveHTTP outcome dur).2 = (b.serve outcome dur).2 ∧
      (lb.serveHTTP outcome dur).1.backends =
        replaceFirst lb.backends b (b.serve outcome dur).1) := by
  have htot : int64wrap (lb.metrics.totalRequests + 1) =
      lb.metrics.totalRequests + 1 :=
    int64wrap_eq_self (by omega) ht2
  have hfail : int64wrap (lb.metrics.failedRequests + 1) =
      lb.metrics.failedRequests + 1 :=
    int64wrap_eq_self (by omega) hf2
  rcases hsel : lb.strat.selectBackend lb.backends with ⟨r, s2⟩
  cases r with
  | nil =>
      refine ⟨?_, fun _ => ⟨?_, ?_, ?_⟩, fun b hb => ?_⟩ <;>
        simp_all [LoadBalancer.serveHTTP, hsel, htot, hfail]
  | ok b0 =>
      refine ⟨?_, fun hn => ?_, fun b hb => ?_⟩ <;>
        simp_all [LoadBalancer.serveHTTP, hsel, htot, hfail]
  | panicked =>
      refine ⟨?_, fun hn => ?_, fun b hb => ?_⟩ <;>
        simp_all [LoadBalancer.serveHTTP, hsel, htot, hfail]

/-- A router with no backends, on the round-robin strategy. -/
def lbEmpty : LoadBalancer :=
  { backends := [], strat := Strategy.roundRobin ⟨0⟩, metrics := ⟨0, 0⟩ }

/-- A router with one alive backend, on the round-robin strategy. -/
def lbOne : LoadBalancer :=
  { backends := [bIdle], strat := Strategy.roundRobin ⟨0⟩, metrics := ⟨3, 1⟩ }

/-- Claim C9 witness: on an empty pool the request bumps both counters and
returns 503; on a one-backend pool the failed counter is untouched and the
forward result is returned. -/
theorem serveHTTP_contract_witness :
    (lbEmpty.serveHTTP (ForwardOutcome.success 200) 7).1.metrics.totalRequests =
      lbEmpty.metrics.totalRequests + 1 ∧
    (lbEmpty.serveHTTP (ForwardOutcome.success 200) 7).1.metrics.failedRequests =
      lbEmpty.metrics.failedRequests + 1 ∧
    (lbEmpty.serveHTTP (ForwardOutcome.success 200) 7).2 =
      HttpResponse.serviceUnavailable ∧
    (lbOne.serveHTTP (ForwardOutcome.success 200) 7).1.metrics.failedRequests =
      lbOne.metrics.failedRequests ∧
    (lbOne.serveHTTP (ForwardOutcome.success 200) 7).2 =
      (bIdle.serve (ForwardOutcome.success 200) 7).2 :=
  ⟨(serveHTTP_contract lbEmpty (ForwardOutcome.success 200) 7 (by decide)
      (by decide) (by decide) (by decide)).1,
   ((serveHTTP_contract lbEmpty (ForwardOutcome.success 200) 7 (by decide)
      (by decide) (by decide) (by decide)).2.1 (by decide)).1,
   ((serveHTTP_contract lbEmpty (ForwardOutcome.success 200) 7 (by decide)
      (by decide) (by decide) (by decide)).2.1 (by decide)).2.1,
   ((serveHTTP_contract lbOne (ForwardOutcome.success 200) 7 (by decide)
      (by decide) (by decide) (by decide)).2.2 bIdle (by decide)).1,
   ((serveHTTP_contract lbOne (ForwardOutcome.success 200) 7 (by decide)
      (by decide) (by decide) (by decide)).2.2 bIdle (by decide)).2.1⟩

/-- The LeastConnections scan restricted to a list of alive backends (the
alive-check of the loop already discharged). -/
def lcAlive : List Backend → Backend → Int → Backend
  | [], selected, _ => selected
  | b :: rest, selected, minConnections =>
      if minConnections = -1 ∨ b.getConnections < minConnections then
        lcAlive rest b b.getConnections
      else lcAlive rest selected minConnections

/-- The LeastConnections scan skips dead backends: it equals the plain scan
over the alive-filtered list. -/
theorem lcLoop_eq_lcAlive_filter :
    ∀ (l : List Backend) (sel : Backend) (minC : Int),
      lcLoop l sel minC = lcAlive (l.filter (fun x => x.isAlive)) sel minC
  | [], _, _ => rfl
  | b :: rest, sel, minC => by
      by_cases hb : b.isAlive = true
      · rw [List.filter_cons_of_pos (by simpa using hb)]
        show (if b.isAlive = false then lcLoop rest sel minC
          else if minC = -1 ∨ b.getConnections < minC then
            lcLoop rest b b.getConnections
          else lcLoop rest sel minC) = _
        rw [if_neg (by simp [hb])]
        show _ = (if minC = -1 ∨ b.getConnections < minC then
          lcAlive (rest.filter (fun x => x.isAlive)) b b.getConnections
          else lcAlive (rest.filter (fun x => x.isAlive)) sel minC)
        by_cases hc : minC = -1 ∨ b.getConnections < minC
        · rw [if_pos hc, if_pos hc, lcLoop_eq_lcAlive_filter rest b b.getConnections]
        · rw [if_neg hc, if_neg hc, lcLoop_eq_lcAlive_filter rest sel minC]
      · rw [List.filter_cons_of_neg (by simpa using hb)]
        show (if b.isAlive = false then lcLoop rest sel minC
          else if minC = -1 ∨ b.getConnections < minC then
            lcLoop rest b b.getConnections
          else lcLoop rest sel minC) = _
        rw [if_pos (by simpa using hb)]
        exact lcLoop_eq_lcAlive_filter rest sel minC

/--
Behaviour of the plain scan from a current selection with non-negative
connection count, over backends with non-negative counts: it keeps the
selection when nothing scans strictly lower, and otherwise lands on the first
backend attaining the (strict) running minimum.
-/
theorem lcAlive_spec :
    ∀ (l : List Backend) (sel : Backend),
      0 ≤ sel.getConnections → (∀ b ∈ l, 0 ≤ b.getConnections) →
      (lcAlive l sel sel.getConnections = sel ∧
        ∀ b ∈ l, sel.getConnections ≤ b.getConnections) ∨
      (∃ (i : Nat) (hi : i < l.length),
        lcAlive l sel sel.getConnections = l.get ⟨i, hi⟩ ∧
        (l.get ⟨i, hi⟩).getConnections < sel.getConnections ∧
        (∀ b ∈ l, (l.get ⟨i, hi⟩).getConnections ≤ b.getConnections) ∧
        ∀ (j : Nat) (hj : j < l.length), j < i →
          (l.get ⟨i, hi⟩).getConnections < (l.get ⟨j, hj⟩).getConnections)
  | [], sel, _, _ => Or.inl ⟨rfl, by simp⟩
  | b :: rest, sel, hsel, hmem => by
      have hb0 : 0 ≤ b.getConnections := hmem b (List.mem_cons_self b rest)
      have hrest : ∀ x ∈ rest, 0 ≤ x.getConnections :=
        fun x hx => hmem x (List.mem_cons_of_mem b hx)
      by_cases hlt : b.getConnections < sel.getConnections
      · have hstep : lcAlive (b :: rest) sel sel.getConnections =
            lcAlive rest b b.getConnections := by
          show (if sel.getConnections = -1 ∨ b.getConnections < sel.getConnections
            then lcAlive rest b b.getConnections
            else lcAlive rest sel sel.getConnections) = _
          rw [if_pos (Or.inr hlt)]
        rcases lcAlive_spec rest b hb0 hrest with ⟨heq, hmin⟩ |
          ⟨i, hi, heq, hlt2, hmin, hstrict⟩
        · right
          refine ⟨0, by simp, ?_, hlt, ?_, ?_⟩
          · rw [hstep, heq]
            rfl
          · intro x hx
            rcases List.mem_cons.mp hx with h | h
            · subst h; exact le_refl _
            · exact hmin x h
          · intro j hj hj0
            exact absurd hj0 (Nat.not_lt_zero _)
        · right
          have hget : ((b :: rest).get ⟨i + 1, Nat.succ_lt_succ hi⟩) =
              rest.get ⟨i, hi⟩ := rfl
          refine ⟨i + 1, Nat.succ_lt_succ hi, ?_, ?_, ?_, ?_⟩
          · rw [hstep, heq, hget]
          · rw [hget]
            exact lt_trans hlt2 hlt
          · intro x hx
            rw [hget]
            rcases List.mem_cons.mp hx with h | h
            · subst h
              exact le_of_lt hlt2
            · exact hmin x h
          · intro j hj hj1
            rw [hget]
            cases j with
            | zero => exact hlt2
            | succ jw =>
                have hgj : ((b :: rest).get ⟨jw + 1, hj⟩) =
                    rest.get ⟨jw, Nat.lt_of_succ_lt_succ hj⟩ := rfl
                rw [hgj]
                exact hstrict jw (Nat.lt_of_succ_lt_succ hj)
                  (Nat.lt_of_succ_lt_succ hj1)
      · have hstep : lcAlive (b :: rest) sel sel.getConnections =
            lcAlive rest sel sel.getConnections := by
          show (if sel.getConnections = -1 ∨ b.getConnections < sel.getConnections
            then lcAlive rest b b.getConnections
            else lcAlive rest sel sel.getConnections) = _
          rw [if_neg (by omega)]
        rcases lcAlive_spec rest sel hsel hrest with ⟨heq, hmin⟩ |
          ⟨i, hi, heq, hlt2, hmin, hstrict⟩
        · left
          refine ⟨by rw [hstep, heq], ?_⟩
          intro x hx
          rcases List.mem_cons.mp hx with h | h
          · subst h; omega
          · exact hmin x h
        · right
          have hget : ((b :: rest).get ⟨i + 1, Nat.succ_lt_succ hi⟩) =
              rest.get ⟨i, hi⟩ := rfl
          refine ⟨i + 1, Nat.succ_lt_succ hi, ?_, ?_, ?_, ?_⟩
          · rw [hstep, heq, hget]
          · rw [hget]
            exact hlt2
          · intro x hx
            rw [hget]
            rcases List.mem_cons.mp hx with h | h
            · subst h
              omega
            · exact hmin x h
          · intro j hj hj1
            rw [hget]
            cases j with
            | zero =>
                show _ < b.getConnections
                omega
            | succ jw =>
                have hgj : ((b :: rest).get ⟨jw + 1, hj⟩) =
                    rest.get ⟨jw, Nat.lt_of_succ_lt_succ hj⟩ := rfl
                rw [hgj]
                exact hstrict jw (Nat.lt_of_succ_lt_succ hj)
                  (Nat.lt_of_succ_lt_succ hj1)

/-- The full LeastConnections scan (zero-value selection, sentinel -1) over a
non-empty list with non-negative counts lands on the first minimum. -/
theorem lcAlive_top_spec (l : List Backend) (hne : l ≠ [])
    (hnn : ∀ b ∈ l, 0 ≤ b.getConnections) :
    ∃ (i : Nat) (hi : i < l.length),
      lcAlive l zeroBackend (-1) = l.get ⟨i, hi⟩ ∧
      (∀ b ∈ l, (l.get ⟨i, hi⟩).getConnections ≤ b.getConnections) ∧
      ∀ (j : Nat) (hj : j < l.length), j < i →
        (l.get ⟨i, hi⟩).getConnections < (l.get ⟨j, hj⟩).getConnections := by
  rcases l with _ | ⟨a, al⟩
  · exact absurd rfl hne
  · have hstep : lcAlive (a :: al) zeroBackend (-1) =
        lcAlive al a a.getConnections := by
      show (if (-1 : Int) = -1 ∨ a.getConnections < -1 then
          lcAlive al a a.getConnections
        else lcAlive al zeroBackend (-1)) = _
      rw [if_pos (Or.inl rfl)]
    have ha0 : 0 ≤ a.getConnections := hnn a (List.mem_cons_self a al)
    have hal0 : ∀ b ∈ al, 0 ≤ b.getConnections :=
      fun b hb => hnn b (List.mem_cons_of_mem a hb)
    rcases lcAlive_spec al a ha0 hal0 with ⟨heq, hmin⟩ |
      ⟨i, hi, heq, hlt2, hmin, hstrict⟩
    · refine ⟨0, by simp, ?_, ?_, ?_⟩
      · rw [hstep, heq]
        rfl
      · intro x hx
        show a.getConnections ≤ x.getConnections
        rcases List.mem_cons.mp hx with h | h
        · subst h; exact le_refl _
        · exact hmin x h
      · intro j hj hj0
        exact absurd hj0 (Nat.not_lt_zero _)
    · have hget : ((a :: al).get ⟨i + 1, Nat.succ_lt_succ hi⟩) =
          al.get ⟨i, hi⟩ := rfl
      refine ⟨i + 1, Nat.succ_lt_succ hi, ?_, ?_, ?_⟩
      · rw [hstep, heq, hget]
      · intro x hx
        rw [hget]
        rcases List.mem_cons.mp hx with h | h
        · subst h
          exact le_of_lt hlt2
        · exact hmin x h
      · intro j hj hj1
        rw [hget]
        cases j with
        | zero => exact hlt2
        | succ jw =>
            have hgj : ((a :: al).get ⟨jw + 1, hj⟩) =
                al.get ⟨jw, Nat.lt_of_succ_lt_succ hj⟩ := rfl
            rw [hgj]
            exact hstrict jw (Nat.lt_of_succ_lt_succ hj)
              (Nat.lt_of_succ_lt_succ hj1)

/--
Claim C5: on a backend list with at least one alive backend (counts being
non-negative, as all reachable connection counts are), LeastConnections
returns an alive backend whose connection count is minimal among the alive
backends, and among ties the first in list order: every alive backend earlier
in the list has a strictly greater count.
-/
theorem leastConnections_selects_min (bs : List Backend)
    (hnn : ∀ b ∈ bs, 0 ≤ b.getConnections)
    (hex : ∃ b ∈ bs, b.isAlive = true) :
    ∃ (i : Nat) (hi : i < (bs.filter (fun x => x.isAlive)).length),
      leastConnectionsSelect bs =
        some ((bs.filter (fun x => x.isAlive)).get ⟨i, hi⟩) ∧
      ((bs.filter (fun x => x.isAlive)).get ⟨i, hi⟩).isAlive = true ∧
      (∀ b ∈ bs.filter (fun x => x.isAlive),
        ((bs.filter (fun x => x.isAlive)).get ⟨i, hi⟩).getConnections ≤
          b.getConnections) ∧
      ∀ (j : Nat) (hj : j < (bs.filter (fun x => x.isAlive)).length), j < i →
        ((bs.filter (fun x => x.isAlive)).get ⟨i, hi⟩).getConnections <
          ((bs.filter (fun x => x.isAlive)).get ⟨j, hj⟩).getConnections := by
  obtain ⟨w, hw, hwa⟩ := hex
  have hlen : ¬ bs.length = 0 := by
    intro h0
    rw [List.length_eq_zero] at h0
    subst h0
    cases hw
  have hsel : leastConnectionsSelect bs =
      some (lcAlive (bs.filter (fun x => x.isAlive)) zeroBackend (-1)) := by
    rw [leastConnectionsSelect, if_neg hlen, lcLoop_eq_lcAlive_filter]
  have hwmem : w ∈ bs.filter (fun x => x.isAlive) :=
    List.mem_filter.mpr ⟨hw, by simpa [Backend.isAlive] using hwa⟩
  have hsub : ∀ b ∈ bs.filter (fun x => x.isAlive), 0 ≤ b.getConnections :=
    fun b hb => hnn b (List.mem_filter.mp hb).1
  obtain ⟨i, hi, heq, hmin, hstrict⟩ :=
    lcAlive_top_spec (bs.filter (fun x => x.isAlive))
      (List.ne_nil_of_mem hwmem) hsub
  refine ⟨i, hi, ?_, ?_, hmin, hstrict⟩
  · rw [hsel, heq]
  · have hmem2 : (bs.filter (fun x => x.isAlive)).get ⟨i, hi⟩ ∈
        bs.filter (fun x => x.isAlive) := List.get_mem _ _ _
    simpa [Backend.isAlive] using (List.mem_filter.mp hmem2).2

/-- Claim C5 witness: for alive backends with counts [2,0,1] the strategy
returns the count-0 backend (filter index 1); for counts [0,0,1] it returns
the first backend; both evaluated directly and through the theorem. -/
theorem leastConnections_selects_min_witness :
    leastConnectionsSelect [bConn2, bConn0, bConn1] = some bConn0 ∧
    leastConnectionsSelect [bConn0, bConn0b, bConn1] = some bConn0 ∧
    (∃ (i : Nat) (hi : i <
        ([bConn2, bConn0, bConn1].filter (fun x => x.isAlive)).length),
      leastConnectionsSelect [bConn2, bConn0, bConn1] =
        some (([bConn2, bConn0, bConn1].filter (fun x => x.isAlive)).get
          ⟨i, hi⟩) ∧
      (([bConn2, bConn0, bConn1].filter (fun x => x.isAlive)).get
          ⟨i, hi⟩).isAlive = true ∧
      (∀ b ∈ [bConn2, bConn0, bConn1].filter (fun x => x.isAlive),
        (([bConn2, bConn0, bConn1].filter (fun x => x.isAlive)).get
          ⟨i, hi⟩).getConnections ≤ b.getConnections) ∧
      ∀ (j : Nat) (hj : j <
          ([bConn2, bConn0, bConn1].filter (fun x => x.isAlive)).length),
        j < i →
        (([bConn2, bConn0, bConn1].filter (fun x => x.isAlive)).get
          ⟨i, hi⟩).getConnections <
          (([bConn2, bConn0, bConn1].filter (fun x => x.isAlive)).get
            ⟨j, hj⟩).getConnections) :=
  ⟨by decide, by decide,
   leastConnections_selects_min [bConn2, bConn0, bConn1] (by decide)
     (by decide)⟩

/-- Go slice indexing at a cast natural index inside bounds returns the
element. -/
theorem goSliceIndex_ofNat (l : List Backend) (k : Nat) (hk : k < l.length) :
    goSliceIndex l (k : Int) = SelResult.ok (l.get ⟨k, hk⟩) := by
  rw [goSliceIndex, dif_pos ⟨Int.ofNat_nonneg k, by simpa using hk⟩]
  rfl

/-- One RoundRobin step over an all-alive list, below the signed-overflow
boundary: cursor c advances to c+1 and the backend at index c mod N is
returned. -/
theorem roundRobin_step (c : Nat) (bs : List Backend) (hne : ¬ bs.length = 0)
    (hal : ∀ b ∈ bs, b.isAlive = true) (hc : c + 1 < 2 ^ 63) :
    RoundRobin.selectBackend ⟨c⟩ bs =
      (SelResult.ok (bs.get ⟨c % bs.length,
        Nat.mod_lt c (Nat.pos_of_ne_zero hne)⟩), ⟨c + 1⟩) := by
  have hfil : bs.filter (fun x => x.isAlive) = bs := List.filter_eq_self.mpr hal
  have hmod : (c + 1) % UINT64MOD = c + 1 :=
    Nat.mod_eq_of_lt (lt_trans hc (by norm_num [UINT64MOD]))
  have hgo : goIntOfUInt64 (c + 1) = ((c + 1 : Nat) : Int) := by
    rw [goIntOfUInt64, if_pos hc]
  have htm : Int.tmod (((c + 1 : Nat) : Int) - 1) ((bs.length : Nat) : Int) =
      ((c % bs.length : Nat) : Int) := by
    have h1 : (((c + 1 : Nat) : Int) - 1) = ((c : Nat) : Int) := by
      push_cast
      ring
    rw [h1]
    exact_mod_cast (Int.ofNat_tmod c bs.length).symm
  rw [RoundRobin.selectBackend]
  simp only [hfil, if_neg hne, hmod, hgo, htm]
  rw [goSliceIndex_ofNat bs (c % bs.length) (Nat.mod_lt c (Nat.pos_of_ne_zero hne))]

/-- Running n RoundRobin steps from cursor c over an all-alive list, below the
signed-overflow boundary, yields the Go-indexed selections
backends[(c+i) mod N] for i = 0..n-1 in order. -/
theorem runRoundRobin_formula (bs : List Backend) (hne : ¬ bs.length = 0)
    (hal : ∀ b ∈ bs, b.isAlive = true) :
    ∀ (n c : Nat), c + n < 2 ^ 63 →
      runRoundRobin ⟨c⟩ bs n = (List.range n).map
        (fun i => goSliceIndex bs (((c + i) % bs.length : Nat) : Int))
  | 0, c, _ => rfl
  | n + 1, c, hc => by
      have hstep := roundRobin_step c bs hne hal (by omega)
      rw [runRoundRobin, hstep]
      have hrec := runRoundRobin_formula bs hne hal n (c + 1) (by omega)
      simp only [hrec]
      rw [List.range_succ_eq_map, List.map_cons, List.map_map]
      congr 1
      · rw [goSliceIndex_ofNat bs ((c + 0) % bs.length)
          (Nat.mod_lt _ (Nat.pos_of_ne_zero hne))]
        simp only [Nat.add_zero]
      · apply List.map_congr_left
        intro a _
        have h1 : c + 1 + a = c + (a + 1) := by omega
        simp only [Function.comp_apply, Nat.succ_eq_add_one, h1]

/-- Element formula for a rotated backend list. -/
theorem rotate_get_formula (bs : List Backend) (hne : ¬ bs.length = 0)
    (c : Nat) :
    ∀ (i : Nat) (hi : i < (bs.rotate (c % bs.length)).length)
      (hj : (c + i) % bs.length < bs.length),
      (bs.rotate (c % bs.length)).get ⟨i, hi⟩ = bs.get ⟨(c + i) % bs.length, hj⟩ := by
  intro i hi hj
  rw [List.get_rotate]
  apply congrArg bs.get
  apply Fin.ext
  show (i + c % bs.length) % bs.length = (c + i) % bs.length
  rw [Nat.add_mod_mod, Nat.add_comm i c]

/--
Claim C4: with N ≥ 1 backends all alive and liveness unchanged, N consecutive
RoundRobin selections visit each backend exactly once (the visited list is a
permutation of the backend list), in the deterministic order
backends[(c+i) mod N] for i = 0..N-1, where c is the cursor's starting value
and c+i+1 the cursor value after call i's atomic increment — that is, each
call returns aliveBackends[(cursor-1) mod N].  The bound keeps the uint64
cursor below the signed-overflow boundary, covering every state reachable
from the constructor's cursor 0.
-/
theorem roundRobin_fairness (bs : List Backend) (c : Nat)
    (hne : ¬ bs.length = 0) (hal : ∀ b ∈ bs, b.isAlive = true)
    (hc : c + bs.length < 2 ^ 63) :
    ∃ visited : List Backend,
      runRoundRobin ⟨c⟩ bs bs.length = visited.map SelResult.ok ∧
      visited.Perm bs ∧
      ∀ (i : Nat) (hi : i < visited.length)
        (hj : (c + i) % bs.length < bs.length),
        visited.get ⟨i, hi⟩ = bs.get ⟨(c + i) % bs.length, hj⟩ := by
  refine ⟨bs.rotate (c % bs.length), ?_, bs.rotate_perm (c % bs.length),
    rotate_get_formula bs hne c⟩
  rw [runRoundRobin_formula bs hne hal bs.length c hc]
  apply List.ext_get
  · simp [List.length_rotate]
  · intro n h1 h2
    have hn : n < bs.length := by simpa using h1
    have hrn : n < (bs.rotate (c % bs.length)).length := by
      simpa [List.length_rotate] using hn
    have hL : ((List.range bs.length).map
        (fun i => goSliceIndex bs (((c + i) % bs.length : Nat) : Int))).get
          ⟨n, h1⟩ =
        goSliceIndex bs (((c + n) % bs.length : Nat) : Int) := by
      rw [List.get_map]
      apply congrArg
      apply congrArg
      apply congrArg Nat.cast
      apply congrArg (fun t => t % bs.length)
      apply congrArg (fun t => c + t)
      simp [List.get_range]
    rw [hL, goSliceIndex_ofNat bs ((c + n) % bs.length)
      (Nat.mod_lt _ (Nat.pos_of_ne_zero hne))]
    have hRg : ((bs.rotate (c % bs.length)).map SelResult.ok).get ⟨n, h2⟩ =
        SelResult.ok ((bs.rotate (c % bs.length)).get ⟨n, hrn⟩) := by
      rw [List.get_map]
    rw [hRg, rotate_get_formula bs hne c n hrn
      (Nat.mod_lt _ (Nat.pos_of_ne_zero hne))]

/-- Claim C4 witness: two alive backends, cursor starting at 0; the two
consecutive selections and the fairness theorem's conclusion at that input. -/
theorem roundRobin_fairness_witness :
    runRoundRobin ⟨0⟩ [bIdle, bConn1] 2 =
      [SelResult.ok bIdle, SelResult.ok bConn1] ∧
    (∃ visited : List Backend,
      runRoundRobin ⟨0⟩ [bIdle, bConn1]
          (([bIdle, bConn1] : List Backend).length) =
        visited.map SelResult.ok ∧
      visited.Perm [bIdle, bConn1] ∧
      ∀ (i : Nat) (hi : i < visited.length)
        (hj : (0 + i) % ([bIdle, bConn1] : List Backend).length <
          ([bIdle, bConn1] : List Backend).length),
        visited.get ⟨i, hi⟩ =
          ([bIdle, bConn1] : List Backend).get
            ⟨(0 + i) % ([bIdle, bConn1] : List Backend).length, hj⟩) :=
  ⟨by decide,
   roundRobin_fairness [bIdle, bConn1] 0 (by decide) (by decide) (by decide)⟩

/-- The source expansion loop of WeightedRoundRobin equals the
specification's filter-then-replicate expansion. -/
theorem expandWeighted_eq_spec (w : List (Backend × Int)) :
    ∀ bs : List Backend, expandWeighted w bs = expandSpec w bs
  | [] => rfl
  | b :: rest => by
      by_cases hb : b.isAlive = true
      · rw [expandWeighted, if_pos hb, expandWeighted_eq_spec w rest]
        simp only [expandSpec, List.filter_cons_of_pos (by simpa using hb),
          List.flatMap_cons]
      · rw [expandWeighted, if_neg hb, expandWeighted_eq_spec w rest]
        simp only [expandSpec, List.filter_cons_of_neg (by simpa using hb),
          List.nil_append]

/-- Members of the weighted expansion are alive, have non-zero weight, and
come from the input list. -/
theorem mem_expandSpec {w : List (Backend × Int)} {bs : List Backend}
    {b : Backend} (hb : b ∈ expandSpec w bs) :
    b.isAlive = true ∧ weightOf w b ≠ 0 ∧ b ∈ bs := by
  simp only [expandSpec] at hb
  obtain ⟨a, ha, hrep⟩ := List.mem_flatMap.mp hb
  obtain ⟨hn, hba⟩ := List.mem_replicate.mp hrep
  subst hba
  refine ⟨by simpa using (List.mem_filter.mp ha).2, ?_,
    (List.mem_filter.mp ha).1⟩
  intro h0
  rw [h0] at hn
  exact hn rfl

/-- The weighted expansion is already alive-filtered. -/
theorem filter_expandSpec (w : List (Backend × Int)) (bs : List Backend) :
    (expandSpec w bs).filter (fun x => x.isAlive) = expandSpec w bs :=
  List.filter_eq_self.mpr (fun b hb => (mem_expandSpec hb).1)

/--
Claim C6: WeightedRoundRobin's selection coincides with RoundRobin selection
(same cursor) over the expansion of the alive backends in list order, each
alive backend repeated weight(b) times with default weight 1; the source
expansion equals that specification expansion; weight-0 backends never appear
in the expansion; and any returned backend belongs to the expansion and has
non-zero weight.
-/
theorem wrr_refines_expansion (wrr : WeightedRoundRobin) (bs : List Backend) :
    expandWeighted wrr.weights bs = expandSpec wrr.weights bs ∧
    (wrr.selectBackend bs).1 =
      ((RoundRobin.mk wrr.current).selectBackend (expandSpec wrr.weights bs)).1 ∧
    ((wrr.selectBackend bs).2).current =
      (((RoundRobin.mk wrr.current).selectBackend
        (expandSpec wrr.weights bs)).2).current ∧
    (∀ b, weightOf wrr.weights b = 0 → b ∉ expandSpec wrr.weights bs) ∧
    (∀ b, (wrr.selectBackend bs).1 = SelResult.ok b →
      b ∈ expandSpec wrr.weights bs ∧ weightOf wrr.weights b ≠ 0) := by
  have hexp : expandWeighted wrr.weights bs = expandSpec wrr.weights bs :=
    expandWeighted_eq_spec _ bs
  have hfil : (expandSpec wrr.weights bs).filter (fun x => x.isAlive) =
      expandSpec wrr.weights bs := filter_expandSpec _ _
  have hnotmem : ∀ b, weightOf wrr.weights b = 0 →
      b ∉ expandSpec wrr.weights bs := by
    intro b h0 hmem
    exact absurd h0 (mem_expandSpec hmem).2.1
  have hmain : (wrr.selectBackend bs).1 =
      ((RoundRobin.mk wrr.current).selectBackend (expandSpec wrr.weights bs)).1 ∧
      ((wrr.selectBackend bs).2).current =
      (((RoundRobin.mk wrr.current).selectBackend
        (expandSpec wrr.weights bs)).2).current := by
    by_cases h1 : bs.length = 0
    · have hbs : bs = [] := List.length_eq_zero.mp h1
      subst hbs
      exact ⟨rfl, rfl⟩
    · by_cases h2 : (expandSpec wrr.weights bs).length = 0
      · rw [WeightedRoundRobin.selectBackend, RoundRobin.selectBackend]
        rw [if_neg h1, if_pos h2]
        rw [hexp, if_pos h2]
        exact ⟨rfl, rfl⟩
      · rw [WeightedRoundRobin.selectBackend, RoundRobin.selectBackend]
        rw [if_neg h1, if_neg h2, hexp, if_neg h2, hfil, if_neg h2]
        exact ⟨rfl, rfl⟩
  refine ⟨hexp, hmain.1, hmain.2, hnotmem, fun b hok => ?_⟩
  have hmem : b ∈ expandSpec wrr.weights bs := by
    rw [WeightedRoundRobin.selectBackend] at hok
    by_cases h1 : bs.length = 0
    · rw [if_pos h1] at hok
      exact SelResult.noConfusion hok
    · rw [if_neg h1] at hok
      by_cases h2 : (expandWeighted wrr.weights bs).length = 0
      · rw [if_pos h2] at hok
        exact SelResult.noConfusion hok
      · rw [if_neg h2] at hok
        simp only [goSliceIndex] at hok
        split at hok
        · injection hok with hb
          subst hb
          rw [← hexp]
          exact List.get_mem _ _ _
        · exact SelResult.noConfusion hok
  exact ⟨hmem, (mem_expandSpec hmem).2.1⟩

/-- Claim C6 witness: with weights 0 for one backend and 2 for another, the
weight-0 backend is excluded from the expansion and never returned, and the
first selection lands on a weight-carrying backend of the expansion. -/
theorem wrr_refines_expansion_witness :
    weightOf [(bConn2, 0), (bConn1, 2)] bConn2 = 0 ∧
    bConn2 ∉ expandSpec [(bConn2, 0), (bConn1, 2)] [bConn2, bConn0, bConn1] ∧
    (WeightedRoundRobin.selectBackend ⟨0, [(bConn2, 0), (bConn1, 2)]⟩
      [bConn2, bConn0, bConn1]).1 = SelResult.ok bConn0 ∧
    bConn0 ∈ expandSpec [(bConn2, 0), (bConn1, 2)] [bConn2, bConn0, bConn1] :=
  ⟨by decide,
   (wrr_refines_expansion ⟨0, [(bConn2, 0), (bConn1, 2)]⟩
     [bConn2, bConn0, bConn1]).2.2.2.1 bConn2 (by decide),
   by decide,
   ((wrr_refines_expansion ⟨0, [(bConn2, 0), (bConn1, 2)]⟩
     [bConn2, bConn0, bConn1]).2.2.2.2 bConn0 (by decide)).1⟩

/-- On a list with no alive backend (the empty list included), RoundRobin,
WeightedRoundRobin, Random and IPHash all return nil, and LeastConnections
returns nil on the empty list: the nil contract of the Strategy interface
holds everywhere except LeastConnections' all-dead case. -/
theorem other_strategies_nil_when_all_dead (bs : List Backend)
    (rr : RoundRobin) (wrr : WeightedRoundRobin) (draw : Nat → Nat)
    (hdead : ∀ b ∈ bs, b.isAlive = false) :
    (rr.selectBackend bs).1 = SelResult.nil ∧
    (wrr.selectBackend bs).1 = SelResult.nil ∧
    randomSelect bs draw = none ∧
    ipHashSelect bs = none ∧
    leastConnectionsSelect [] = none := by
  have hfil : bs.filter (fun x => x.isAlive) = [] := by
    rw [List.filter_eq_nil]
    intro b hb
    simp [hdead b hb]
  have hexp : expandWeighted wrr.weights bs = [] := by
    rw [expandWeighted_eq_spec, expandSpec, hfil]
    rfl
  refine ⟨?_, ?_, ?_, ?_, rfl⟩
  · rw [RoundRobin.selectBackend]
    by_cases h1 : bs.length = 0
    · rw [if_pos h1]
    · rw [if_neg h1, hfil]
      rfl
  · rw [WeightedRoundRobin.selectBackend]
    by_cases h1 : bs.length = 0
    · rw [if_pos h1]
    · rw [if_neg h1, hexp]
      rfl
  · rw [randomSelect]
    by_cases h1 : bs.length = 0
    · rw [if_pos h1]
    · rw [if_neg h1]
      simp [hfil]
  · rw [ipHashSelect]
    by_cases h1 : bs.length = 0
    · rw [if_pos h1]
    · rw [if_neg h1, hfil]

end GoBalancer
